import Mathlib

/-!
Shallow embedding of `charmonium.time_block` (files `time_block.py`, `utils.py`)
for verification of its specification.

Design of the embedding:
* Python `float` durations are modelled as exact rationals `ℚ`; memory deltas
  (`int` bytes) as `ℤ`.
* `TimeBlock.stats` is a `defaultdict` mapping a call path (tuple of labels)
  to a list of samples.  It is modelled as an association list with
  insertion-order semantics (`Stats`); `defaultdict.__getitem__` materialises
  a fresh empty entry at the end, exactly as `extendEntry` does.
* Operations that raise in Python (`KeyError` from plain-dict indexing,
  `ZeroDivisionError`, `IndexError` from list indexing) are modelled as
  `Option` results, `none` standing for the raised exception.
* `math.log` is modelled as the exact real logarithm, whose floor over the
  rationals is computed by `ratFloorLog`.
-/

namespace TimeBlock

/-- A call path: the tuple of labels `tuple(self.data.stack[1:])`. -/
abbrev CallPath := List String

/-- One recorded sample `(duration, mem_leaked)`. -/
abbrev Sample := ℚ × ℤ

/-- The statistics table `self.stats`: insertion-ordered mapping from call
path to its list of samples. -/
abbrev Stats := List (CallPath × List Sample)

/-- Dictionary lookup `stats[key]` (read-only: `key in stats` / `stats.get`). -/
def dictLookup : Stats → CallPath → Option (List Sample)
  | [], _ => none
  | (k', v) :: rest, k => if k' = k then some v else dictLookup rest k

/-- `self.stats[key].extend(ts)` on a `defaultdict(list)`: extend the entry in
place if the key is present, otherwise materialise a fresh entry holding `ts`
at the end (Python dict insertion order). -/
def extendEntry : Stats → CallPath → List Sample → Stats
  | [], k, ts => [(k, ts)]
  | (k', v) :: rest, k, ts =>
      if k' = k then (k', v ++ ts) :: rest else (k', v) :: extendEntry rest k ts

/-- `self.stats[key].append(s)` on a `defaultdict(list)` (time_block.py:162). -/
def recordSample (st : Stats) (k : CallPath) (s : Sample) : Stats :=
  extendEntry st k [s]

/-- `TimeBlock.add_stats` (time_block.py:341-350): for each entry of the other
snapshot, in iteration order, `self.stats[key].extend(times)`. -/
def addStats (st : Stats) (other : Stats) : Stats :=
  other.foldl (fun acc kv => extendEntry acc kv.1 kv.2) st

/-- `TimeBlock.clear` (time_block.py:352-359): `self.stats.clear()`. -/
def clearStats (_st : Stats) : Stats := []

/-- `TimeBlock.get_stats` (time_block.py:101-106): returns
`copy.deepcopy(dict(self.stats))`.  In the pure embedding a deep copy of the
table is the table's value itself. -/
def getStats (st : Stats) : Stats := st

/-- The store's mutating operations (`record` via a scope exit, `add_stats`,
`clear`). -/
inductive StoreOp
  | record (k : CallPath) (s : Sample)
  | merge (other : Stats)
  | clear

/-- Apply one mutating operation to the store. -/
def applyOp (st : Stats) : StoreOp → Stats
  | .record k s => recordSample st k s
  | .merge o => addStats st o
  | .clear => clearStats st

/-- Apply a sequence of mutating operations to the store. -/
def applyOps (st : Stats) (ops : List StoreOp) : Stats :=
  ops.foldl applyOp st

/-- `utils.mean` (utils.py:27-28): `sum(lst) / len(lst)`.  (For an empty list
Python raises `ZeroDivisionError`; callers below guard that case.) -/
def meanQ (l : List ℚ) : ℚ := l.sum / l.length

/-- `utils.stddev` (utils.py:31-36).  `math.sqrt` is an external real-valued
collaborator, passed in as `sqrtFn`; the singleton branch returns `0` without
invoking it. -/
def stddev (sqrtFn : ℚ → ℚ) (l : List ℚ) (ddof : ℤ) : ℚ :=
  if l.length ≠ 1 then
    sqrtFn ((l.map (fun x => (x - meanQ l) ^ 2)).sum / ((l.length : ℚ) - ddof))
  else 0

/-- The durations of an entry's samples (`[time for time, mem in vals]`). -/
def durations (vals : List Sample) : List ℚ := vals.map Prod.fst

/-- The unit tables of `utils.mem2str` (utils.py:10-16). -/
def unitMap (base2 : Bool) : List String :=
  if base2 then ["B", "KiB", "MiB", "GiB", "TiB"] else ["B", "KB", "MB", "GB", "TB"]

/-- Python list indexing `l[i]`, including negative-index wraparound;
`none` models `IndexError`. -/
def pyIndex (l : List String) (i : ℤ) : Option String :=
  if 0 ≤ i then l.get? i.toNat
  else if 0 ≤ i + l.length then l.get? (i + l.length).toNat else none

/-- `int(math.floor(math.log(math.fabs(x), b)))` over exact rationals: the
unique `e` with `b ^ e ≤ |x| < b ^ (e + 1)` (for `b ≥ 2`, `x ≠ 0`).  For
`|x| ≥ 1` this is `Nat.log b ⌊|x|⌋`; for `|x| < 1` it is `-⌈log_b (1/|x|)⌉`,
where the ceiling is the floor-log of `1/|x|` when that is an exact power of
`b` and one more otherwise.  (`x = 0` never reaches this function: `mem2str`
guards it; the value returned then is junk.) -/
def ratFloorLog (b : ℕ) (x : ℚ) : ℤ :=
  if 1 ≤ |x| then ((Nat.log b (Int.toNat ⌊|x|⌋) : ℕ) : ℤ)
  else
    let z : ℚ := 1 / |x|
    let k : ℕ := Nat.log b (Int.toNat ⌊z⌋)
    if z = (b : ℚ) ^ k then -(k : ℤ) else -((k : ℤ) + 1)

/-- `utils.mem2str` (utils.py:6-24), for the default `round_up = False`
(the only mode the repository calls, so `rounder = math.floor`):
pick `unit_int = min(len(unit_map) - 1, floor(log_base |n|))` (or `0` for
`n = 0`), divide by `base ** unit_int` and look the unit name up — with
Python's negative-index semantics, `none` modelling `IndexError`. -/
def mem2str (n_bytes : ℚ) (base2 : Bool) : Option (ℚ × String × ℚ) :=
  let um := unitMap base2
  let base : ℕ := if base2 then 1024 else 1000
  let unit_int : ℤ :=
    if n_bytes ≠ 0 then min ((um.length : ℤ) - 1) (ratFloorLog base n_bytes) else 0
  let unit_div : ℚ := (base : ℚ) ^ unit_int
  (pyIndex um unit_int).map fun u => (n_bytes / unit_div, u, unit_div)

/-!
### The report's percentage fields

`TimeBlock.format_stats` (time_block.py:252-304) first computes, for every
key of a `get_stats()` snapshot, the tuple
`(len(vals), mean(times), stddev(times), mean(mems), stddev(mems))` — this
comprehension raises `ZeroDivisionError` if any entry's sample list is empty —
and then per row the two percentage fields.  The two functions below embed
the per-key percentage computations; `none` models the exceptions Python
would raise on the way to that row's value (`mean` of an empty list,
division by a zero mean, and — for percent-of-root only — the unguarded
`stats[key[:2]]` lookup raising `KeyError`).
-/

/-- Percent-of-parent for `key` (time_block.py:280-285):
`parent = key[:-1]`; if `parent in stats` then
`mean(key) / mean(parent) * 100` else `100`. -/
def percentParent (stats : Stats) (key : CallPath) : Option ℚ :=
  match dictLookup stats key with
  | none => none
  | some vals =>
    if vals = [] then none
    else
      let m := meanQ (durations vals)
      match dictLookup stats key.dropLast with
      | some pvals =>
          let pm := meanQ (durations pvals)
          if pm = 0 then none else some (m / pm * 100)
      | none => some 100

/-- Percent-of-root for `key` (time_block.py:287-289):
`total = key[:2]`; `stats[total]` — a plain-dict lookup that raises
`KeyError` (`none`) when the first-two-labels prefix is absent — then
`mean(key) / mean(total) * 100`. -/
def percentRoot (stats : Stats) (key : CallPath) : Option ℚ :=
  match dictLookup stats key with
  | none => none
  | some vals =>
    if vals = [] then none
    else
      let m := meanQ (durations vals)
      match dictLookup stats (key.take 2) with
      | none => none
      | some tvals =>
          let tm := meanQ (durations tvals)
          if tm = 0 then none else some (m / tm * 100)

/-!
### The measured scope `TimeBlock.ctx`

`ctx` (time_block.py:108-176) for one execution context: push
`name + name_extra` onto the context's stack, run the wrapped body (which may
itself open and close nested scopes, and may raise), then — in the `finally`
block — record `(duration, mem_leaked)` under `tuple(stack[1:])`, pop the
label, and re-raise the captured exception, if any.  Wall-clock and memory
readings are external collaborators, so the sample the exit writes is a
parameter; the log sink and the gc sub-timer affect only notice text, not
the state.  Exceptions are values of an arbitrary type `E`.
-/

/-- One execution context's view of a `TimeBlock`: its own label stack plus
the shared stats table. -/
structure TBState where
  stack : List String
  stats : Stats
deriving DecidableEq

/-- Run `with tb.ctx(label): body` from state `s`: the body is a state
transformer returning the exception it raised, if any. -/
def ctxRun {E : Type} (label : String) (dur : ℚ) (memd : ℤ)
    (body : TBState → TBState × Option E) (s : TBState) : TBState × Option E :=
  let s1 : TBState := { s with stack := s.stack ++ [label] }
  let r := body s1
  let s2 := r.1
  let key := s2.stack.drop 1
  let s3 : TBState :=
    { stack := s2.stack.dropLast, stats := recordSample s2.stats key (dur, memd) }
  (s3, r.2)

/-!
### Trace semantics of nested scopes on one context

For claims about sequences of scope enters and exits we split `ctxRun` into
its two state-changing halves: the push on entry (time_block.py:137) and the
record-then-pop on exit (time_block.py:161-163), and run a list of such
events while logging each recording.
-/

/-- One scope event on a context: entering a scope with a label, or exiting
the innermost scope with the measured sample. -/
inductive ScopeEv
  | enter (l : String)
  | exit (d : ℚ) (m : ℤ)

/-- Full state of a trace run: the context's stack, the stats table, and the
log of recordings `(key, sample)` in the order they were appended. -/
structure RunState where
  stack : List String
  stats : Stats
  log : List (CallPath × Sample)

/-- One step: `enter l` appends the label (`stack.append`); `exit d m`
records `(d, m)` under `tuple(stack[1:])` and then pops the label
(`stack.pop()`). -/
def stepEv (st : RunState) : ScopeEv → RunState
  | .enter l => { st with stack := st.stack ++ [l] }
  | .exit d m =>
      let key := st.stack.drop 1
      { stack := st.stack.dropLast,
        stats := recordSample st.stats key (d, m),
        log := st.log ++ [(key, (d, m))] }

/-- Run a list of scope events. -/
def runEvs (st : RunState) (evs : List ScopeEv) : RunState :=
  evs.foldl stepEv st

/-- Well-nestedness of a trace started with a stack of height `n`: every exit
happens while some entered label sits above the synthetic root (so Python's
`stack.pop()` never pops the root or an empty stack). -/
def validEvs : ℕ → List ScopeEv → Bool
  | _, [] => true
  | n, .enter _ :: rest => validEvs (n + 1) rest
  | n, .exit _ _ :: rest => decide (2 ≤ n) && validEvs (n - 1) rest

/-- Spec-side description (from the spec's words, to be compared with the
run): the stack contents the context holds just before each event, evolved
by appending on enter and dropping the last label on exit. -/
def stackEvolve (stk : List String) : List ScopeEv → List String
  | [] => stk
  | .enter l :: rest => stackEvolve (stk ++ [l]) rest
  | .exit _ _ :: rest => stackEvolve stk.dropLast rest

/-- Spec-side description: for each exit of the trace, the stack contents at
that exit moment with the stack's first element (the synthetic root label)
removed. -/
def exitKeysSpec (stk : List String) : List ScopeEv → List CallPath
  | [] => []
  | .enter l :: rest => exitKeysSpec (stk ++ [l]) rest
  | .exit _ _ :: rest => stk.drop 1 :: exitKeysSpec stk.dropLast rest

/-!
### The decorator's argument rendering

`TimeBlock.decor` (time_block.py:187-198) with `print_args=True` builds
`arg_str` as `"".join(["(", ", ".join(repr(arg) for arg in args),
", ".join(f"{key}={val!r}" for key, val in sorted(kwargs.items())), ")"])`.
`repr` is an external collaborator, so positional arguments arrive as their
rendered strings and keyword arguments as (name, rendered value) pairs.
-/

/-- Lexicographic order on keyword names used by Python's `sorted` on dict
items (dict keys are unique, so the key alone decides the order). -/
def kwLE (a b : String × String) : Bool := a.1 ≤ b.1

/-- The rendered argument suffix built by `decor`'s `timed_func`. -/
def renderArgs (argReprs : List String) (kwargs : List (String × String)) : String :=
  let pos := String.intercalate ", " argReprs
  let kw := String.intercalate ", "
    ((kwargs.mergeSort kwLE).map fun kv => kv.1 ++ "=" ++ kv.2)
  "(" ++ pos ++ kw ++ ")"

/-! ### Helper lemmas about the association-list store -/

/-- After `stats[k].extend(ts)`, looking up `k` yields the prior samples
(empty if `k` was absent) followed by `ts`. -/
theorem dictLookup_extendEntry_self (st : Stats) (k : CallPath) (ts : List Sample) :
    dictLookup (extendEntry st k ts) k = some ((dictLookup st k).getD [] ++ ts) := by
  induction st with
  | nil => simp [extendEntry, dictLookup]
  | cons kv rest ih =>
    obtain ⟨k', v⟩ := kv
    by_cases h : k' = k
    · subst h
      simp [extendEntry, dictLookup]
    · simp [extendEntry, dictLookup, h, ih]

/-- `stats[k].extend(ts)` leaves every other key's entry unchanged. -/
theorem dictLookup_extendEntry_ne (st : Stats) (k k' : CallPath) (ts : List Sample)
    (h : k' ≠ k) :
    dictLookup (extendEntry st k ts) k' = dictLookup st k' := by
  induction st with
  | nil => simp [extendEntry, dictLookup, Ne.symm h]
  | cons kv rest ih =>
    obtain ⟨k0, v⟩ := kv
    by_cases h0 : k0 = k
    · subst h0
      simp [extendEntry, dictLookup, Ne.symm h]
    · simp only [extendEntry, if_neg h0, dictLookup]
      by_cases h1 : k0 = k'
      · simp [h1]
      · simp [h1, ih]

/-- `add_stats` with a snapshot not containing `k` leaves `k`'s entry
unchanged. -/
theorem dictLookup_addStats_of_not_mem (S : Stats) (B : Stats) (k : CallPath)
    (hk : k ∉ S.map Prod.fst) :
    dictLookup (addStats B S) k = dictLookup B k := by
  induction S generalizing B with
  | nil => rfl
  | cons kv rest ih =>
    obtain ⟨k0, ts0⟩ := kv
    simp only [List.map_cons, List.mem_cons, not_or] at hk
    have hstep : addStats B ((k0, ts0) :: rest) = addStats (extendEntry B k0 ts0) rest := rfl
    rw [hstep, ih _ hk.2]
    exact dictLookup_extendEntry_ne B k0 k ts0 hk.1

/-! ### C9 -/

/-- C9: `stddev` on a single-element list returns `0` (for any square-root
collaborator), instead of evaluating the `(len - ddof)`-denominator formula,
so report generation is total on paths holding exactly one sample. -/
theorem stddev_singleton_eq_zero (sqrtFn : ℚ → ℚ) (x : ℚ) :
    stddev sqrtFn [x] 1 = 0 := by
  simp [stddev]

/-! ### C5 -/

/-- C5: `get_stats` returns the current path-to-samples table, before or
after any sequence of `record`/`merge`/`clear` operations.  In the pure
embedding the snapshot is a value, so — exactly what `copy.deepcopy`
establishes in Python — no subsequent operation on the store can affect a
snapshot already taken: operations produce new stores, and the snapshot of
each store equals that store's table. -/
theorem getStats_snapshot_eq_table (st : Stats) (ops : List StoreOp) :
    getStats st = st ∧ getStats (applyOps st ops) = applyOps st ops :=
  ⟨rfl, rfl⟩

/-! ### C4 -/

/-- C4 (code bug): with one positional argument rendered `3` and one keyword
argument `k=4`, the decorator's rendered suffix is `(3k=4)` — the two joined
groups are concatenated with no `, ` separator between the last positional
repr and the first keyword entry, contrary to the documented
`(arg1, arg2, key=val, ...)` shape. -/
theorem renderArgs_drops_group_separator :
    renderArgs ["3"] [("k", "4")] = "(3k=4)" ∧
    renderArgs ["3"] [("k", "4")] ≠ "(3, k=4)" := by
  constructor
  · simp only [renderArgs, List.mergeSort_singleton]
    decide
  · simp only [renderArgs, List.mergeSort_singleton]
    decide

/-! ### C3 -/

/-- The keys of the recordings a trace appends to the log are exactly the
spec-side exit keys: the stack contents at each exit moment minus the
stack's first element. -/
theorem runEvs_log_keys (evs : List ScopeEv) (stk : List String) (sts : Stats)
    (lg : List (CallPath × Sample)) :
    ((runEvs ⟨stk, sts, lg⟩ evs).log).map Prod.fst
      = lg.map Prod.fst ++ exitKeysSpec stk evs := by
  induction evs generalizing stk sts lg with
  | nil => simp [runEvs, exitKeysSpec]
  | cons e rest ih =>
    cases e with
    | enter l =>
      simpa [runEvs, stepEv, exitKeysSpec] using ih (stk ++ [l]) sts lg
    | exit d m =>
      have h := ih stk.dropLast (recordSample sts (stk.drop 1) (d, m))
        (lg ++ [(stk.drop 1, (d, m))])
      simpa [runEvs, stepEv, exitKeysSpec] using h

/-- C3: for every well-nested sequence of scope enters and exits on one
execution context, the call path under which each exit records its sample
equals the context's stack contents at that exit moment with the synthetic
root label (the stack's first element) removed. -/
theorem recorded_paths_eq_stack_minus_root (evs : List ScopeEv) (stk : List String)
    (sts : Stats) (_h : validEvs stk.length evs = true) :
    ((runEvs ⟨stk, sts, []⟩ evs).log).map Prod.fst = exitKeysSpec stk evs := by
  simpa using runEvs_log_keys evs stk sts []

/-- Witness for C3 at the trace `enter a, enter b, exit, exit` from the
root-only stack: the two recordings happen under `a > b` and then `a`. -/
theorem recorded_paths_eq_stack_minus_root_witness :
    ((runEvs ⟨["r"], [], []⟩
        [.enter "a", .enter "b", .exit 1 0, .exit 2 0]).log).map Prod.fst
      = [["a", "b"], ["a"]] := by
  have h := recorded_paths_eq_stack_minus_root
    [.enter "a", .enter "b", .exit 1 0, .exit 2 0] ["r"] [] (by decide)
  simpa [exitKeysSpec] using h

/-! ### C2 -/

/-- C2: when the wrapped body of a scope raises, the scope still appends
exactly one `(duration, memory-delta)` sample under the scope's call path
(the stack at entry, root removed, i.e. `(s.stack ++ [label]).drop 1`),
leaves every other path's samples unchanged, pops its label — restoring the
context's stack — and re-raises the same failure unchanged to the caller.
The body is any state transformer that restores the stack it was entered
with (as every well-formed nested use of `ctx` does). -/
theorem ctx_failure_still_records_and_reraises {E : Type} (s : TBState) (label : String)
    (dur : ℚ) (memd : ℤ) (body : TBState → TBState × Option E) (e : E) (s2 : TBState)
    (hbody : body { s with stack := s.stack ++ [label] } = (s2, some e))
    (hstk : s2.stack = s.stack ++ [label]) :
    (ctxRun label dur memd body s).2 = some e
    ∧ (ctxRun label dur memd body s).1.stack = s.stack
    ∧ dictLookup (ctxRun label dur memd body s).1.stats ((s.stack ++ [label]).drop 1)
        = some ((dictLookup s2.stats ((s.stack ++ [label]).drop 1)).getD []
            ++ [(dur, memd)])
    ∧ ∀ k, k ≠ (s.stack ++ [label]).drop 1 →
        dictLookup (ctxRun label dur memd body s).1.stats k = dictLookup s2.stats k := by
  have hrun : ctxRun label dur memd body s =
      ({ stack := s2.stack.dropLast,
         stats := recordSample s2.stats (s2.stack.drop 1) (dur, memd) }, some e) := by
    simp [ctxRun, hbody]
  refine ⟨by rw [hrun], ?_, ?_, ?_⟩
  · rw [hrun]
    simp [hstk]
  · rw [hrun, hstk]
    exact dictLookup_extendEntry_self _ _ _
  · intro k hk
    rw [hrun, hstk]
    exact dictLookup_extendEntry_ne _ _ _ _ hk

/-- Witness for C2: entering scope `f` from the root-only context with a
body that raises `3` still records `(1, 2)` under path `f`, restores the
stack, and re-raises `3`. -/
theorem ctx_failure_still_records_and_reraises_witness :
    (ctxRun "f" 1 2 (fun st => (st, some (3 : ℕ))) ⟨["r"], []⟩).2 = some 3
    ∧ (ctxRun "f" 1 2 (fun st => (st, some (3 : ℕ))) ⟨["r"], []⟩).1.stack = ["r"]
    ∧ dictLookup (ctxRun "f" 1 2 (fun st => (st, some (3 : ℕ))) ⟨["r"], []⟩).1.stats
        ["f"] = some [(1, 2)] := by
  have h := ctx_failure_still_records_and_reraises (E := ℕ) ⟨["r"], []⟩ "f" 1 2
    (fun st => (st, some 3)) 3 ⟨["r", "f"], []⟩ rfl rfl
  refine ⟨h.1, h.2.1, ?_⟩
  have h3 := h.2.2.1
  simp only [List.cons_append, List.nil_append, List.drop_succ_cons, List.drop_nil,
    dictLookup, Option.getD_none, List.nil_append] at h3
  exact h3

/-! ### C6 -/

/-- C6: after `B.add_stats(S)` (with `S` a snapshot, so its keys are
distinct), every key of `S` maps in `B` to `B`'s prior sample list for that
key (empty if absent) followed by `S`'s samples in order, and every key
absent from `S` keeps its prior entry. -/
theorem add_stats_appends_per_key (B S : Stats) (h : (S.map Prod.fst).Nodup)
    (k : CallPath) :
    (∀ ts, dictLookup S k = some ts →
        dictLookup (addStats B S) k = some ((dictLookup B k).getD [] ++ ts))
    ∧ (dictLookup S k = none → dictLookup (addStats B S) k = dictLookup B k) := by
  induction S generalizing B with
  | nil =>
    exact ⟨fun ts hts => by simp [dictLookup] at hts, fun _ => rfl⟩
  | cons kv rest ih =>
    obtain ⟨k0, ts0⟩ := kv
    simp only [List.map_cons, List.nodup_cons] at h
    have hstep : addStats B ((k0, ts0) :: rest) = addStats (extendEntry B k0 ts0) rest := rfl
    by_cases hk : k0 = k
    · subst hk
      constructor
      · intro ts hts
        have hts0 : dictLookup ((k0, ts0) :: rest) k0 = some ts0 := by simp [dictLookup]
        rw [hts0, Option.some.injEq] at hts
        subst hts
        rw [hstep, dictLookup_addStats_of_not_mem rest _ _ h.1]
        exact dictLookup_extendEntry_self B k0 ts0
      · intro hnone
        simp [dictLookup] at hnone
    · have hlook : dictLookup ((k0, ts0) :: rest) k = dictLookup rest k := by
        simp [dictLookup, hk]
      have hB : dictLookup (extendEntry B k0 ts0) k = dictLookup B k :=
        dictLookup_extendEntry_ne B k0 k ts0 (fun e => hk e.symm)
      obtain ⟨ih1, ih2⟩ := ih (extendEntry B k0 ts0) h.2
      constructor
      · intro ts hts
        rw [hlook] at hts
        rw [hstep, ih1 ts hts, hB]
      · intro hnone
        rw [hlook] at hnone
        rw [hstep, ih2 hnone, hB]

/-- Witness for C6: merging `{a: [(2,1)], b: [(3,2)]}` into `{a: [(1,0)]}`
yields `[(1,0), (2,1)]` under `a`. -/
theorem add_stats_appends_per_key_witness :
    dictLookup (addStats [(["a"], [(1, 0)])] [(["a"], [(2, 1)]), (["b"], [(3, 2)])])
      ["a"] = some [(1, 0), (2, 1)] := by
  have h := (add_stats_appends_per_key [(["a"], [(1, 0)])]
    [(["a"], [(2, 1)]), (["b"], [(3, 2)])] (by decide) ["a"]).1 [(2, 1)] (by decide)
  simp only [dictLookup, if_pos rfl, Option.getD_some] at h
  exact h

/-! ### C7 -/

/-- C7: in the report, a path whose immediate-parent path (the path minus
its last label) has no entry in the stats mapping gets percent-of-parent
exactly 100 — in particular every single-label path when the empty path has
no entry — and otherwise percent-of-parent is the path's mean duration
divided by the parent's mean duration, times 100 (the parent's mean being
nonzero wherever Python's division produces the row at all). -/
theorem percent_parent_formula (stats : Stats) (key : CallPath) (vals : List Sample)
    (hk : dictLookup stats key = some vals) (hne : vals ≠ []) :
    (dictLookup stats key.dropLast = none → percentParent stats key = some 100)
    ∧ (∀ pvals, dictLookup stats key.dropLast = some pvals →
        meanQ (durations pvals) ≠ 0 →
        percentParent stats key
          = some (meanQ (durations vals) / meanQ (durations pvals) * 100))
    ∧ (key.length = 1 → dictLookup stats [] = none → percentParent stats key = some 100) := by
  refine ⟨?_, ?_, ?_⟩
  · intro hp
    simp [percentParent, hk, hne, hp]
  · intro pvals hp hm
    simp [percentParent, hk, hne, hp, hm]
  · intro hlen hp
    obtain ⟨a, rfl⟩ := List.length_eq_one.mp hlen
    simp [percentParent, hk, hne, hp]

/-- Witness for C7 at the store `{a: [(1,0)]}` and the top-level path `a`:
its parent (the empty path) has no entry, so percent-of-parent is 100. -/
theorem percent_parent_formula_witness :
    percentParent [(["a"], [(1, 0)])] ["a"] = some 100 := by
  exact (percent_parent_formula [(["a"], [(1, 0)])] ["a"] [(1, 0)] (by decide)
    (by decide)).1 (by decide)

/-! ### C1 (corrected) -/

/-- C1 counterexample: in the store `{a > b > c: [(1, 0)]}` the path
`a > b > c` has its first-two-labels prefix `a > b` absent, and
percent-of-root is not 100 — `format_stats` raises `KeyError` at the
unguarded `stats[key[:2]]` lookup (modelled `none`), so no report row with
value 100 is produced. -/
theorem percent_root_missing_prefix_not_100 :
    percentRoot [(["a", "b", "c"], [(1, 0)])] ["a", "b", "c"] = none
    ∧ percentRoot [(["a", "b", "c"], [(1, 0)])] ["a", "b", "c"] ≠ some 100 := by
  constructor
  · decide
  · decide

/-- C1 as amended: for every path key present with samples, when the path's
first-two-labels prefix is present in the stats mapping (with nonzero mean
duration, as wherever Python's division produces the row) percent-of-root
equals the path's mean duration divided by the prefix's mean duration times
100; when the prefix is absent, the computation fails with `KeyError`
(`none`) instead of defaulting to 100. -/
theorem percent_root_formula (stats : Stats) (key : CallPath) (vals : List Sample)
    (hk : dictLookup stats key = some vals) (hne : vals ≠ []) :
    (∀ tvals, dictLookup stats (key.take 2) = some tvals →
        meanQ (durations tvals) ≠ 0 →
        percentRoot stats key
          = some (meanQ (durations vals) / meanQ (durations tvals) * 100))
    ∧ (dictLookup stats (key.take 2) = none → percentRoot stats key = none) := by
  constructor
  · intro tvals ht hm
    simp [percentRoot, hk, hne, ht, hm]
  · intro ht
    simp [percentRoot, hk, hne, ht]

/-- Witness for C1's amended statement at the store
`{a: [(2,0)], a > b: [(1,0)]}` and path `a > b`: the first-two prefix is
`a > b` itself, so percent-of-root is `1/1 * 100 = 100`. -/
theorem percent_root_formula_witness :
    percentRoot [(["a"], [(2, 0)]), (["a", "b"], [(1, 0)])] ["a", "b"] = some 100 := by
  have h := (percent_root_formula [(["a"], [(2, 0)]), (["a", "b"], [(1, 0)])]
    ["a", "b"] [(1, 0)] (by decide) (by decide)).1 [(1, 0)] (by decide)
    (by norm_num [meanQ, durations])
  rw [h]
  norm_num [meanQ, durations]

/-! ### Helper lemmas about `mem2str` -/

/-- On a nonzero integer input the rational floor-log is the natural
floor-log of its absolute value. -/
theorem ratFloorLog_intCast (b : ℕ) (n : ℤ) (hn : n ≠ 0) :
    ratFloorLog b (n : ℚ) = (Nat.log b n.natAbs : ℤ) := by
  have h1 : (1 : ℚ) ≤ |(n : ℚ)| := by
    rw [← Int.cast_abs]
    exact_mod_cast Int.one_le_abs hn
  rw [ratFloorLog, if_pos h1, ← Int.cast_abs, Int.floor_intCast]
  congr 1
  rw [Int.abs_eq_natAbs, Int.toNat_natCast]

/-- Indexing the five-element unit table at a nonnegative index `≤ 4` never
wraps or fails. -/
theorem pyIndex_unitMap_of_le (b2 : Bool) (i : ℕ) (h : i ≤ 4) :
    pyIndex (unitMap b2) (i : ℤ) = some ((unitMap b2).getD i "B") := by
  cases b2 <;> interval_cases i <;> rfl

/-- Casting an integer's absolute value to `ℚ`. -/
theorem abs_cast_natAbs (n : ℤ) : |(n : ℚ)| = (n.natAbs : ℚ) := by
  rw [← Int.cast_abs, Int.abs_eq_natAbs, Int.cast_natCast]

/-- Concrete evaluation: `mem2str(1536)` with binary units is
`(1.5, "KiB", 1024)`. -/
theorem mem2str_eval_1536 :
    mem2str (1536 : ℚ) true = some ((3 : ℚ) / 2, "KiB", (1024 : ℚ)) := by
  have hfl : ratFloorLog 1024 (1536 : ℚ) = 1 := by
    have h := ratFloorLog_intCast 1024 1536 (by norm_num)
    have hl : Nat.log 1024 1536 = 1 := by
      apply Nat.log_eq_of_pow_le_of_lt_pow <;> norm_num
    norm_num [hl] at h
    exact_mod_cast h
  rw [mem2str]
  have hb : (if true = true then (1024 : ℕ) else 1000) = 1024 := rfl
  have hlen : (((unitMap true).length : ℤ)) = 5 := rfl
  rw [hb, hlen, if_pos (by norm_num : (1536 : ℚ) ≠ 0), hfl]
  have hmin : (5 - 1 : ℤ) ⊓ 1 = 1 := by norm_num
  rw [hmin]
  have hpy : pyIndex (unitMap true) 1 = some "KiB" := rfl
  rw [hpy, Option.map_some']
  norm_num

/-! ### C8 -/

/-- C8: for every nonzero integer byte count `n`, `mem2str` with binary
units divides by `1024 ^ i` and picks the unit of index `i`, where
`i = min 4 (⌊log_1024 |n|⌋)` — the floor-log capped at the TiB index; this
`i` keeps the rendered magnitude at least 1 (`1024 ^ i ≤ |n|`) and, below
the cap, is the largest such index (`|n| < 1024 ^ (i + 1)`). -/
theorem mem2str_binary_unit_floor_log (n : ℤ) (hn : n ≠ 0) :
    mem2str (n : ℚ) true =
      some ((n : ℚ) / (1024 : ℚ) ^ min 4 (Nat.log 1024 n.natAbs),
            (unitMap true).getD (min 4 (Nat.log 1024 n.natAbs)) "B",
            (1024 : ℚ) ^ min 4 (Nat.log 1024 n.natAbs))
    ∧ (1024 : ℚ) ^ min 4 (Nat.log 1024 n.natAbs) ≤ |(n : ℚ)|
    ∧ (min 4 (Nat.log 1024 n.natAbs) < 4 →
        |(n : ℚ)| < (1024 : ℚ) ^ (min 4 (Nat.log 1024 n.natAbs) + 1)) := by
  have hq : (n : ℚ) ≠ 0 := Int.cast_ne_zero.mpr hn
  have hlog := ratFloorLog_intCast 1024 n hn
  refine ⟨?_, ?_, ?_⟩
  · rw [mem2str]
    have hb : (if true = true then (1024 : ℕ) else 1000) = 1024 := rfl
    have hlen : (((unitMap true).length : ℤ)) = 5 := rfl
    rw [hb, hlen, if_pos hq, hlog]
    have hmin : (5 - 1 : ℤ) ⊓ ((Nat.log 1024 n.natAbs : ℕ) : ℤ)
        = ((min 4 (Nat.log 1024 n.natAbs) : ℕ) : ℤ) := by
      push_cast
      omega
    rw [hmin, pyIndex_unitMap_of_le true _ (min_le_left _ _)]
    have hz : (((1024 : ℕ)) : ℚ) ^ (((min 4 (Nat.log 1024 n.natAbs) : ℕ)) : ℤ)
        = (1024 : ℚ) ^ min 4 (Nat.log 1024 n.natAbs) := by
      rw [zpow_natCast]
      norm_num
    rw [Option.map_some', hz]
  · rw [abs_cast_natAbs]
    have h1 : (1024 : ℕ) ^ min 4 (Nat.log 1024 n.natAbs) ≤ n.natAbs :=
      le_trans (Nat.pow_le_pow_right (by norm_num) (min_le_right _ _))
        (Nat.pow_log_le_self 1024 (Int.natAbs_ne_zero.mpr hn))
    exact_mod_cast h1
  · intro hlt
    have hmin2 : min 4 (Nat.log 1024 n.natAbs) = Nat.log 1024 n.natAbs := by omega
    rw [hmin2, abs_cast_natAbs]
    have h2 : n.natAbs < (1024 : ℕ) ^ (Nat.log 1024 n.natAbs + 1) :=
      Nat.lt_pow_succ_log_self (by norm_num) _
    exact_mod_cast h2

/-- Witness for C8 at `n = 1536`: the value is `1.5`, the unit `KiB`, and
the magnitude is at least 1. -/
theorem mem2str_binary_unit_floor_log_witness :
    mem2str (1536 : ℚ) true = some ((3 : ℚ) / 2, "KiB", (1024 : ℚ))
    ∧ (1 : ℚ) ≤ (3 : ℚ) / 2 := by
  have h := mem2str_binary_unit_floor_log 1536 (by norm_num)
  have hl : Nat.log 1024 (Int.natAbs 1536) = 1 := by
    have h0 : Int.natAbs 1536 = 1536 := rfl
    rw [h0]
    apply Nat.log_eq_of_pow_le_of_lt_pow <;> norm_num
  rw [hl] at h
  norm_num [unitMap] at h
  exact ⟨h, by norm_num⟩

/-! ### C10 -/

/-- C10: whenever `mem2str` returns at all, the returned value times the
returned divisor equals the input byte count exactly — scaling a stddev by
the divisor is consistent with the rendered mean's unit. -/
theorem mem2str_value_times_divisor_eq_input (n : ℚ) (b2 : Bool) (v : ℚ) (u : String)
    (d : ℚ) (h : mem2str n b2 = some (v, u, d)) : v * d = n := by
  rw [mem2str] at h
  obtain ⟨u', hu', heq⟩ := Option.map_eq_some'.mp h
  rw [Prod.mk.injEq, Prod.mk.injEq] at heq
  obtain ⟨h1, h2, h3⟩ := heq
  rw [← h1, ← h3]
  have hbase : ((if b2 = true then (1024 : ℕ) else 1000 : ℕ) : ℚ) ≠ 0 := by
    cases b2 <;> norm_num
  exact div_mul_cancel₀ n (zpow_ne_zero _ hbase)

/-- Witness for C10 at `n = 1536` with binary units: `1.5 × 1024 = 1536`. -/
theorem mem2str_value_times_divisor_eq_input_witness : (3 : ℚ) / 2 * 1024 = 1536 :=
  mem2str_value_times_divisor_eq_input 1536 true ((3 : ℚ) / 2) "KiB" 1024 mem2str_eval_1536

end TimeBlock
